import Mathlib

/-!
Verification of the AirQuality-LLM-Advisor repository (demo.py, demo2.py).

The development shallowly embeds the data-preparation pipeline of
`load_aqi_datasets`, the LLM context sampling, the proactive alert
classifier of `main`, the chat-error handling of `get_groq_response`, and
the batch latency runner of demo2.py (`get_groq_response_and_time` plus
the main loop and final summary), then proves the specified properties
about these embeddings.
-/

namespace AirQuality

/-- Lexicographic order on character data by Unicode code point, the
order pandas `sort_values` uses on string columns. -/
def lexLe : List Char → List Char → Bool
  | [], _ => true
  | _ :: _, [] => false
  | a :: as, b :: bs =>
    if a.toNat < b.toNat then true
    else if b.toNat < a.toNat then false
    else lexLe as bs

def strLe (a b : String) : Bool := lexLe a.data b.data

/-- First occurrence of the maximum of `f` over a list, mirroring pandas
`Series.idxmax`: ties on the maximum keep the earliest row. -/
def firstMaxBy {α β : Type} [LinearOrder β] (f : α → β) : List α → Option α
  | [] => none
  | r :: rs =>
    match firstMaxBy f rs with
    | none => some r
    | some b => if f r < f b then some b else some r

/-!
## Data model for `load_aqi_datasets` (demo.py lines 61-124)

A raw day-table row carries an entity identifier (the `City` column of
`city_day.csv`, or the station identifier of `station_day.csv`), a
parsed date, and a raw AQI cell which may be missing (NaN), numeric, or
present but non-numeric.
-/

/-- Raw content of the AQI column of a day table: missing (NaN), numeric,
or present but non-numeric (so `dropna` keeps it and `pd.to_numeric`
coerces it to NaN, which `fillna(0)` turns into 0). -/
inductive AqiCell : Type
  | missing : AqiCell
  | num : ℚ → AqiCell
  | nonNum : AqiCell
deriving DecidableEq

/-- A row of a day table after date parsing (`pd.to_datetime`). -/
structure DayRow : Type where
  entity : String
  date : ℕ
  rawAqi : AqiCell
deriving DecidableEq

/-- A row of a latest table after AQI cleanup: demo.py lines 80-81 and
87-88 drop missing-AQI rows and coerce the remaining AQI values. -/
structure Obs : Type where
  entity : String
  date : ℕ
  aqi : ℚ
deriving DecidableEq

/-- `latest = df.loc[df.groupby(entity)[Date].idxmax()]` (demo.py lines
79 and 84): one row per distinct entity — groupby keys are sorted
ascending — and for each entity the first source row attaining that
entity's maximum date. -/
def latestSelect (rows : List DayRow) : List DayRow :=
  (List.insertionSort (fun a b => strLe a b = true)
      ((rows.map (fun r => r.entity)).dedup)).filterMap
    (fun e => firstMaxBy (fun r => r.date) (rows.filter (fun r => r.entity == e)))

/-- `pd.to_numeric(errors=coerce).fillna(0)` on an AQI cell that survived
`dropna` (demo.py lines 81 and 88). -/
def coerceAqi : AqiCell → ℚ
  | .missing => 0
  | .num v => v
  | .nonNum => 0

/-- `df.dropna(subset=[AQI])` then AQI coercion (demo.py lines 80-81 /
87-88): rows whose AQI is missing at the latest stage are excluded, the
rest have their AQI coerced to a number. -/
def prepare (rows : List DayRow) : List Obs :=
  ((latestSelect rows).filter (fun r => !(r.rawAqi == AqiCell.missing))).map
    (fun r => { entity := r.entity, date := r.date, aqi := coerceAqi r.rawAqi })

/-- The sorted list of distinct entities used by `latestSelect`. -/
def sortedEntities (rows : List DayRow) : List String :=
  List.insertionSort (fun a b => strLe a b = true) ((rows.map (fun r => r.entity)).dedup)

/-!
## Context sampling (demo.py lines 91-103)
-/

/-- `df.sort_values(by=entity)` on a latest table whose entity keys are
the sort keys (demo.py lines 97 and 103). -/
def sortByEntity (l : List Obs) : List Obs :=
  List.insertionSort (fun a b => strLe a.entity b.entity = true) l

/-- `drop_duplicates(subset=[entity])` keeps the first row for each
entity (demo.py line 100); `seen` carries the entities already kept. -/
def dedupKeepFirstAux (seen : List String) : List Obs → List Obs
  | [] => []
  | r :: rs =>
    if r.entity ∈ seen then dedupKeepFirstAux seen rs
    else r :: dedupKeepFirstAux (r.entity :: seen) rs

def dedupKeepFirst (l : List Obs) : List Obs := dedupKeepFirstAux [] l

/-- City context sampling (demo.py lines 93-100): the first row attaining
the maximum AQI (`idxmax`), prepended to the alphabetically first
`cap - 1` rows of the other cities, de-duplicated by city. demo.py uses
`cap = 10` (`head(9)` plus the worst row). -/
def citySample (table : List Obs) (cap : ℕ) : List Obs :=
  match firstMaxBy (fun r => r.aqi) table with
  | none => []
  | some w =>
    dedupKeepFirst
      (w :: (sortByEntity (table.filter (fun r => !(r.entity == w.entity)))).take (cap - 1))

/-- Station context sampling (demo.py line 103):
`latest_station_data.sort_values(by=StationName).head(15)` — just the
first `cap` rows alphabetically, with no special treatment of the
worst-AQI station. demo.py uses `cap = 15`. -/
def stationSample (table : List Obs) (cap : ℕ) : List Obs :=
  (sortByEntity table).take cap

/-!
## Proactive alert classifier (demo.py lines 211-225)
-/

inductive Tier : Type
  | GOOD : Tier
  | MODERATE : Tier
  | POOR : Tier
  | VERY_POOR : Tier
  | SEVERE : Tier
deriving DecidableEq

/-- The threshold cascade of demo.py lines 211-225: `aqi_val >= 401`,
`elif >= 301`, `elif >= 201`, `elif >= 101`, `else`. -/
def classify (aqi : ℚ) : Tier :=
  if 401 ≤ aqi then Tier.SEVERE
  else if 301 ≤ aqi then Tier.VERY_POOR
  else if 201 ≤ aqi then Tier.POOR
  else if 101 ≤ aqi then Tier.MODERATE
  else Tier.GOOD

/-- Severity ordering GOOD < MODERATE < POOR < VERY_POOR < SEVERE. -/
def tierRank : Tier → ℕ
  | Tier.GOOD => 0
  | Tier.MODERATE => 1
  | Tier.POOR => 2
  | Tier.VERY_POOR => 3
  | Tier.SEVERE => 4

/-!
## Batch latency runner (demo2.py)
-/

/-- Outcome of one Groq API call as seen by
`get_groq_response_and_time`: either a normal completion — carrying the
content, the optional endpoint-reported `usage.total_time`, and the
locally measured elapsed time — or a raised exception. -/
inductive CallOutcome : Type
  | ok : String → Option ℚ → ℚ → CallOutcome
  | err : String → CallOutcome
deriving DecidableEq

/-- demo2.py lines 57-92: prefer `usage.total_time` when present, fall
back to the local clock; on exception return the error description and
the sentinel latency `-1.0`. -/
def respAndTime : CallOutcome → String × ℚ
  | .ok c (some t) _ => (c, t)
  | .ok c none e => (c, e)
  | .err m => ("API_ERROR: " ++ m, -1)

inductive Status : Type
  | SUCCESS : Status
  | FAILURE : Status
deriving DecidableEq

/-- One row of `groq_performance_data.csv` (demo2.py lines 118, 131). -/
structure BatchResult : Type where
  queryId : ℕ
  query : String
  response : String
  latency : ℚ
  status : Status
deriving DecidableEq

/-- demo2.py lines 124-131: `status = "SUCCESS" if trt >= 0 else
"FAILURE"`, query ids are `i + 1`. -/
def mkResult (qid : ℕ) (q : String) (out : CallOutcome) : BatchResult :=
  { queryId := qid, query := q, response := (respAndTime out).1,
    latency := (respAndTime out).2,
    status := if 0 ≤ (respAndTime out).2 then Status.SUCCESS else Status.FAILURE }

def runBatchFrom : ℕ → List (String × CallOutcome) → List BatchResult
  | _, [] => []
  | qid, (q, out) :: rest => mkResult qid q out :: runBatchFrom (qid + 1) rest

/-- The sequential loop of demo2.py lines 120-131, one result per query
in input order. -/
def runBatch (inp : List (String × CallOutcome)) : List BatchResult :=
  runBatchFrom 1 inp

/-- Arithmetic mean, as `Series.mean` over the successful rows. -/
def meanOf (l : List ℚ) : ℚ := l.sum / l.length

/-- `Series.median`: middle element of the sorted values, or the average
of the two middle elements for an even count. -/
def medianOf (l : List ℚ) : ℚ :=
  let s := List.insertionSort (· ≤ ·) l
  if s.length % 2 = 1 then s.getD (s.length / 2) 0
  else (s.getD (s.length / 2 - 1) 0 + s.getD (s.length / 2) 0) / 2

inductive Summary : Type
  | na : Summary
  | stats : ℚ → ℚ → Summary
deriving DecidableEq

/-- Final summary of demo2.py lines 136-145: filter rows with
`Total_Response_Time_Seconds >= 0`; if none remain, report the string
`N/A` for both statistics, otherwise their mean and median. -/
def finalSummary (results : List BatchResult) : Summary :=
  if (results.filter (fun r => decide (0 ≤ r.latency))).isEmpty then Summary.na
  else
    Summary.stats
      (meanOf ((results.filter (fun r => decide (0 ≤ r.latency))).map (fun r => r.latency)))
      (medianOf ((results.filter (fun r => decide (0 ≤ r.latency))).map (fun r => r.latency)))

/-!
## Chat session and credential handling (demo.py)
-/

structure ChatTurn : Type where
  role : String
  content : String
deriving DecidableEq

/-- Python truthiness of `GROQ_API_KEY` (`if not GROQ_API_KEY`): the
variable may be unset (`os.environ.get` returns None) or empty. -/
def keyPresent : Option String → Bool
  | none => false
  | some s => !s.isEmpty

/-- demo.py line 134. -/
def keyMissingMsg : String :=
  "⚠️ Error: GROQ_API_KEY not found. Ensure it is set in your .env file and the 'python-dotenv' library is installed."

def apiErrorTail : String :=
  ". The data context size has been reduced. If this persists, check your Groq API tier limits."

/-- demo.py line 177: the user-visible reply when the Groq call raises. -/
def errorReply (e : String) : String :=
  "An API error occurred: " ++ e ++ apiErrorTail

/-- demo.py lines 129-177 reduced to its control flow: missing key →
warning string, otherwise the call result, with a raised exception
converted to `errorReply`. The network call is modelled by its result so
that the key-missing branch provably never consults it. -/
def getGroqResponse (key : Option String) (call : Except String String) : String :=
  if !(keyPresent key) then keyMissingMsg
  else
    match call with
    | .ok reply => reply
    | .error e => errorReply e

/-- One user turn of the chat loop, demo.py lines 247-261: append the
user message, obtain the reply, append the assistant message. -/
def submitTurn (key : Option String) (hist : List ChatTurn) (q : String)
    (call : Except String String) : List ChatTurn × String :=
  let reply := getGroqResponse key call
  (hist ++ [{ role := "user", content := q }, { role := "assistant", content := reply }],
   reply)

/-- demo2.py line 25. -/
def fatalKeyMsg : String :=
  "FATAL ERROR: GROQ_API_KEY not found in environment variables."

/-- demo2.py lines 24-27: module setup exits fatally, before any network
call, when the key is absent. -/
def batchStartup (key : Option String) : Except String Unit :=
  if keyPresent key then Except.ok () else Except.error fatalKeyMsg

/-- Observable outcome of one interactive turn: either the process halts
or the session continues with a grown history and a displayed reply. -/
inductive TurnOutcome : Type
  | halted : TurnOutcome
  | replied : List ChatTurn → String → TurnOutcome
deriving DecidableEq

/-- The interactive path never halts on a missing key: demo.py renders
whatever string `get_groq_response` returns and keeps the session
alive. -/
def interactiveTurn (key : Option String) (hist : List ChatTurn) (q : String)
    (call : Except String String) : TurnOutcome :=
  TurnOutcome.replied (submitTurn key hist q call).1 (submitTurn key hist q call).2

/-!
## Concrete inputs used by witnesses and counterexamples
-/

/-- City-day rows with a tie on Delhi's maximum date. -/
def exDayRows : List DayRow :=
  [ { entity := "Delhi", date := 2, rawAqi := AqiCell.num 450 },
    { entity := "Delhi", date := 2, rawAqi := AqiCell.num 420 },
    { entity := "Mumbai", date := 2, rawAqi := AqiCell.num 80 } ]

def exLatestDelhi : DayRow := { entity := "Delhi", date := 2, rawAqi := AqiCell.num 450 }

/-- Rows exercising the missing / non-numeric / numeric AQI cases. -/
def exC3Rows : List DayRow :=
  [ { entity := "A", date := 1, rawAqi := AqiCell.missing },
    { entity := "B", date := 1, rawAqi := AqiCell.nonNum },
    { entity := "C", date := 1, rawAqi := AqiCell.num 42 } ]

def exMissingRow : DayRow := { entity := "A", date := 1, rawAqi := AqiCell.missing }

def exNonNumRow : DayRow := { entity := "B", date := 1, rawAqi := AqiCell.nonNum }

/-- The cap=3 sampling example: A(AQI=10), B(AQI=90), C(AQI=5). -/
def exCityTable : List Obs :=
  [ { entity := "A", date := 0, aqi := 10 },
    { entity := "B", date := 0, aqi := 90 },
    { entity := "C", date := 0, aqi := 5 } ]

/-- Sixteen stations; the worst-AQI station sorts last alphabetically,
so `head(15)` misses it. -/
def exStationTable : List Obs :=
  [ { entity := "S01", date := 0, aqi := 50 },
    { entity := "S02", date := 0, aqi := 51 },
    { entity := "S03", date := 0, aqi := 52 },
    { entity := "S04", date := 0, aqi := 53 },
    { entity := "S05", date := 0, aqi := 54 },
    { entity := "S06", date := 0, aqi := 55 },
    { entity := "S07", date := 0, aqi := 56 },
    { entity := "S08", date := 0, aqi := 57 },
    { entity := "S09", date := 0, aqi := 58 },
    { entity := "S10", date := 0, aqi := 59 },
    { entity := "S11", date := 0, aqi := 60 },
    { entity := "S12", date := 0, aqi := 61 },
    { entity := "S13", date := 0, aqi := 62 },
    { entity := "S14", date := 0, aqi := 63 },
    { entity := "S15", date := 0, aqi := 64 },
    { entity := "Z99", date := 0, aqi := 999 } ]

def exWorstStation : Obs := { entity := "Z99", date := 0, aqi := 999 }

/-- Three queries where the second call raises. -/
def exBatch : List (String × CallOutcome) :=
  [ ("q1", CallOutcome.ok "a1" (some 2) 5),
    ("q2", CallOutcome.err "boom"),
    ("q3", CallOutcome.ok "a3" none 3) ]

/-- A batch where every call fails. -/
def exBatchAllFail : List (String × CallOutcome) :=
  [ ("q1", CallOutcome.err "x") ]

/-!
## Helper lemmas
-/

theorem firstMaxBy_cons {α β : Type} [LinearOrder β] (f : α → β) (r : α) (rs : List α) :
    firstMaxBy f (r :: rs) =
      match firstMaxBy f rs with
      | none => some r
      | some b => if f r < f b then some b else some r := rfl

theorem firstMaxBy_eq_none {α β : Type} [LinearOrder β] (f : α → β) (l : List α) :
    firstMaxBy f l = none ↔ l = [] := by
  cases l with
  | nil => simp [firstMaxBy]
  | cons r rs =>
    rw [firstMaxBy_cons]
    cases h : firstMaxBy f rs with
    | none => simp
    | some b =>
      constructor
      · intro hc
        by_cases hlt : f r < f b <;> simp [hlt] at hc
      · intro hc
        exact absurd hc (List.cons_ne_nil r rs)

theorem firstMaxBy_mem {α β : Type} [LinearOrder β] (f : α → β) {l : List α} {w : α}
    (h : firstMaxBy f l = some w) : w ∈ l := by
  induction l with
  | nil => simp [firstMaxBy] at h
  | cons r rs ih =>
    rw [firstMaxBy_cons] at h
    cases hrs : firstMaxBy f rs with
    | none =>
      rw [hrs] at h
      simp only [Option.some.injEq] at h
      subst h
      exact List.mem_cons_self r rs
    | some b =>
      rw [hrs] at h
      by_cases hlt : f r < f b
      · simp only [hlt, if_true, Option.some.injEq] at h
        subst h
        exact List.mem_cons_of_mem _ (ih hrs)
      · simp only [hlt, if_false, Option.some.injEq] at h
        subst h
        exact List.mem_cons_self r rs

theorem firstMaxBy_le {α β : Type} [LinearOrder β] (f : α → β) {l : List α} :
    ∀ {w : α}, firstMaxBy f l = some w → ∀ s ∈ l, f s ≤ f w := by
  induction l with
  | nil => simp
  | cons r rs ih =>
    intro w h
    rw [firstMaxBy_cons] at h
    cases hrs : firstMaxBy f rs with
    | none =>
      rw [hrs] at h
      simp only [Option.some.injEq] at h
      subst h
      have hnil : rs = [] := (firstMaxBy_eq_none f rs).mp hrs
      subst hnil
      intro s hs
      simp at hs
      subst hs
      exact le_refl _
    | some b =>
      rw [hrs] at h
      by_cases hlt : f r < f b
      · simp only [hlt, if_true, Option.some.injEq] at h
        subst h
        intro s hs
        rcases List.mem_cons.mp hs with hs | hs
        · subst hs; exact le_of_lt hlt
        · exact ih hrs s hs
      · simp only [hlt, if_false, Option.some.injEq] at h
        subst h
        intro s hs
        rcases List.mem_cons.mp hs with hs | hs
        · subst hs; exact le_refl _
        · exact le_trans (ih hrs s hs) (le_of_not_lt hlt)

theorem firstMaxBy_find {α β : Type} [LinearOrder β] (f : α → β) {l : List α} :
    ∀ {w : α}, firstMaxBy f l = some w →
      l.find? (fun s => decide (f w ≤ f s)) = some w := by
  induction l with
  | nil => intro w h; simp [firstMaxBy] at h
  | cons r rs ih =>
    intro w h
    rw [firstMaxBy_cons] at h
    cases hrs : firstMaxBy f rs with
    | none =>
      rw [hrs] at h
      simp only [Option.some.injEq] at h
      subst h
      simp [List.find?]
    | some b =>
      rw [hrs] at h
      by_cases hlt : f r < f b
      · simp only [hlt, if_true, Option.some.injEq] at h
        subst h
        have hhead : decide (f b ≤ f r) = false := by
          simp [not_le.mpr hlt]
        simp [List.find?, hhead, ih hrs]
      · simp only [hlt, if_false, Option.some.injEq] at h
        subst h
        simp [List.find?]

/-- `find?` only depends on the predicate values on the list. -/
theorem find_congr_mem {α : Type} {p q : α → Bool} {l : List α}
    (h : ∀ a ∈ l, p a = q a) : l.find? p = l.find? q := by
  induction l with
  | nil => rfl
  | cons a l ih =>
    have ha := h a (List.mem_cons_self a l)
    have hl : ∀ b ∈ l, p b = q b := fun b hb => h b (List.mem_cons_of_mem a hb)
    cases hq : q a with
    | true => simp [List.find?, ha, hq]
    | false => simp [List.find?, ha, hq, ih hl]

theorem lexLe_total : ∀ a b : List Char, lexLe a b = true ∨ lexLe b a = true := by
  intro a
  induction a with
  | nil => intro b; left; rfl
  | cons x as ih =>
    intro b
    cases b with
    | nil => right; rfl
    | cons y bs =>
      by_cases h1 : x.toNat < y.toNat
      · left; simp [lexLe, h1]
      · by_cases h2 : y.toNat < x.toNat
        · right; simp [lexLe, h2]
        · rcases ih bs with h | h
          · left; simp [lexLe, h1, h2, h]
          · right; simp [lexLe, h1, h2, h]

theorem lexLe_trans :
    ∀ a b c : List Char, lexLe a b = true → lexLe b c = true → lexLe a c = true := by
  intro a
  induction a with
  | nil => intro b c _ _; rfl
  | cons x as ih =>
    intro b c hab hbc
    cases b with
    | nil => simp [lexLe] at hab
    | cons y bs =>
      cases c with
      | nil => simp [lexLe] at hbc
      | cons z cs =>
        by_cases hxy : x.toNat < y.toNat
        · by_cases hyz : y.toNat < z.toNat
          · have hxz : x.toNat < z.toNat := lt_trans hxy hyz
            simp [lexLe, hxz]
          · by_cases hzy : z.toNat < y.toNat
            · simp [lexLe, hyz, hzy] at hbc
            · have hxz : x.toNat < z.toNat := by omega
              simp [lexLe, hxz]
        · by_cases hyx : y.toNat < x.toNat
          · simp [lexLe, hxy, hyx] at hab
          · simp only [lexLe, hxy, hyx, if_false] at hab
            by_cases hyz : y.toNat < z.toNat
            · have hxz : x.toNat < z.toNat := by omega
              simp [lexLe, hxz]
            · by_cases hzy : z.toNat < y.toNat
              · simp [lexLe, hyz, hzy] at hbc
              · simp only [lexLe, hyz, hzy, if_false] at hbc
                have hxz : ¬ x.toNat < z.toNat := by omega
                have hzx : ¬ z.toNat < x.toNat := by omega
                simp [lexLe, hxz, hzx, ih bs cs hab hbc]

theorem strLe_total (a b : String) : strLe a b = true ∨ strLe b a = true :=
  lexLe_total a.data b.data

theorem strLe_trans {a b c : String} (h1 : strLe a b = true) (h2 : strLe b c = true) :
    strLe a c = true :=
  lexLe_trans a.data b.data c.data h1 h2

instance : IsTotal String (fun a b => strLe a b = true) := ⟨strLe_total⟩

instance : IsTrans String (fun a b => strLe a b = true) := ⟨fun _ _ _ => strLe_trans⟩

instance : IsTotal Obs (fun a b => strLe a.entity b.entity = true) :=
  ⟨fun a b => strLe_total a.entity b.entity⟩

instance : IsTrans Obs (fun a b => strLe a.entity b.entity = true) :=
  ⟨fun _ _ _ h1 h2 => strLe_trans h1 h2⟩

theorem sortedEntities_nodup (rows : List DayRow) : (sortedEntities rows).Nodup :=
  ((List.perm_insertionSort (fun a b => strLe a b = true) _).nodup_iff).mpr
    (List.nodup_dedup _)

theorem mem_sortedEntities {rows : List DayRow} {e : String} :
    e ∈ sortedEntities rows ↔ e ∈ rows.map (fun r => r.entity) := by
  unfold sortedEntities
  rw [(List.perm_insertionSort (fun a b => strLe a b = true) _).mem_iff, List.mem_dedup]

theorem latestSelect_group_some {rows : List DayRow} {e : String}
    (he : e ∈ rows.map (fun r => r.entity)) :
    ∃ r, firstMaxBy (fun r => r.date) (rows.filter (fun r => r.entity == e)) = some r ∧
      r.entity = e ∧ r ∈ rows := by
  rcases List.mem_map.mp he with ⟨s, hs, hse⟩
  have hne : rows.filter (fun r => r.entity == e) ≠ [] := by
    intro hnil
    have : s ∈ rows.filter (fun r => r.entity == e) :=
      List.mem_filter.mpr ⟨hs, by simp [hse]⟩
    rw [hnil] at this
    exact absurd this (List.not_mem_nil s)
  cases hw : firstMaxBy (fun r => r.date) (rows.filter (fun r => r.entity == e)) with
  | none => exact absurd ((firstMaxBy_eq_none _ _).mp hw) hne
  | some r =>
    have hrmem := firstMaxBy_mem _ hw
    have hrf := List.mem_filter.mp hrmem
    exact ⟨r, rfl, by simpa using hrf.2, hrf.1⟩

theorem filterMap_group_entities (rows : List DayRow) :
    ∀ es : List String, (∀ e ∈ es, e ∈ rows.map (fun r => r.entity)) →
      (es.filterMap
          (fun e => firstMaxBy (fun r => r.date)
            (rows.filter (fun r => r.entity == e)))).map (fun r => r.entity) = es := by
  intro es
  induction es with
  | nil => intro _; rfl
  | cons e es ih =>
    intro hmem
    rcases latestSelect_group_some (hmem e (List.mem_cons_self e es)) with ⟨r, hr, hre, _⟩
    simp only [List.filterMap_cons, hr, List.map_cons, hre]
    rw [ih (fun x hx => hmem x (List.mem_cons_of_mem e hx))]

theorem latestSelect_map_entity (rows : List DayRow) :
    (latestSelect rows).map (fun r => r.entity) = sortedEntities rows :=
  filterMap_group_entities rows (sortedEntities rows)
    (fun _ he => mem_sortedEntities.mp he)

theorem mem_latestSelect {rows : List DayRow} {r : DayRow}
    (hr : r ∈ latestSelect rows) :
    r ∈ rows ∧
      firstMaxBy (fun s => s.date) (rows.filter (fun s => s.entity == r.entity)) = some r := by
  unfold latestSelect at hr
  rcases List.mem_filterMap.mp hr with ⟨e, _, hfe⟩
  have hrmem := firstMaxBy_mem _ hfe
  have hrf := List.mem_filter.mp hrmem
  have hre : r.entity = e := by simpa using hrf.2
  subst hre
  exact ⟨hrf.1, hfe⟩

/-!
## Claim theorems
-/

theorem sortByEntity_perm (l : List Obs) : List.Perm (sortByEntity l) l :=
  List.perm_insertionSort _ l

theorem sortByEntity_sorted (l : List Obs) :
    List.Sorted (fun a b : Obs => strLe a.entity b.entity = true) (sortByEntity l) :=
  List.sorted_insertionSort _ l

theorem dedupKeepFirstAux_eq_self :
    ∀ (l : List Obs) (seen : List String),
      (l.map (fun r => r.entity)).Nodup →
      (∀ r ∈ l, r.entity ∉ seen) → dedupKeepFirstAux seen l = l := by
  intro l
  induction l with
  | nil => intro seen _ _; rfl
  | cons r rs ih =>
    intro seen hnd hdisj
    have hr : r.entity ∉ seen := hdisj r (List.mem_cons_self r rs)
    have hnd' : (r.entity :: rs.map (fun s => s.entity)).Nodup := by simpa using hnd
    rw [show dedupKeepFirstAux seen (r :: rs) =
          if r.entity ∈ seen then dedupKeepFirstAux seen rs
          else r :: dedupKeepFirstAux (r.entity :: seen) rs from rfl]
    rw [if_neg hr]
    congr 1
    apply ih (r.entity :: seen) (List.nodup_cons.mp hnd').2
    intro s hs hmem
    rcases List.mem_cons.mp hmem with h | h
    · exact (List.nodup_cons.mp hnd').1 (by rw [← h]; exact List.mem_map_of_mem _ hs)
    · exact hdisj s (List.mem_cons_of_mem r hs) h

theorem restSlice_facts (table : List Obs) (w : Obs) (k : ℕ)
    (hnd : (table.map (fun r => r.entity)).Nodup) :
    (((sortByEntity (table.filter (fun r => !(r.entity == w.entity)))).take k).map
      (fun r => r.entity)).Nodup ∧
    (∀ r ∈ (sortByEntity (table.filter (fun r => !(r.entity == w.entity)))).take k,
      r ∈ table ∧ r.entity ≠ w.entity) := by
  have hfil : ((table.filter (fun r => !(r.entity == w.entity))).map
      (fun r => r.entity)).Nodup :=
    ((List.filter_sublist table).map (fun r => r.entity)).nodup hnd
  have hsortnd : ((sortByEntity (table.filter (fun r => !(r.entity == w.entity)))).map
      (fun r => r.entity)).Nodup :=
    (((sortByEntity_perm _).map (fun r => r.entity)).nodup_iff).mpr hfil
  constructor
  · rw [List.map_take]
    exact (List.take_sublist k _).nodup hsortnd
  · intro r hr
    have hr2 : r ∈ sortByEntity (table.filter (fun r => !(r.entity == w.entity))) :=
      (List.take_sublist k _).subset hr
    have hr3 : r ∈ table.filter (fun r => !(r.entity == w.entity)) :=
      (sortByEntity_perm _).mem_iff.mp hr2
    rcases List.mem_filter.mp hr3 with ⟨hrt, hrb⟩
    exact ⟨hrt, by simpa using hrb⟩

/-- C1 counterexample: the station context is just the alphabetically
first `cap` rows (demo.py line 103), so with sixteen stations and the
code's cap of 15 the global-maximum-AQI station `Z99` — worst of the
whole table — is absent from the station sample. -/
theorem stationSample_misses_worst :
    exWorstStation ∈ exStationTable ∧
    (∀ r ∈ exStationTable, r.aqi ≤ exWorstStation.aqi) ∧
    exWorstStation ∉ stationSample exStationTable 15 := by
  decide

/-- C1 as amended: for every non-empty latest table and every cap, the
CITY sample does contain the global-maximum-AQI entity as its first
element; the station sample carries no such guarantee. -/
theorem citySample_worst_first (table : List Obs) (cap : ℕ) (hne : table ≠ []) :
    ∃ w, firstMaxBy (fun r => r.aqi) table = some w ∧
      (∀ r ∈ table, r.aqi ≤ w.aqi) ∧
      (citySample table cap).head? = some w ∧
      w ∈ citySample table cap := by
  cases hw : firstMaxBy (fun r => r.aqi) table with
  | none => exact absurd ((firstMaxBy_eq_none _ _).mp hw) hne
  | some w =>
    have hcs : ∃ t, citySample table cap = w :: t := by
      unfold citySample
      rw [hw]
      exact ⟨dedupKeepFirstAux [w.entity]
        ((sortByEntity (table.filter (fun r => !(r.entity == w.entity)))).take (cap - 1)),
        rfl⟩
    rcases hcs with ⟨t, ht⟩
    refine ⟨w, rfl, firstMaxBy_le _ hw, ?_, ?_⟩
    · rw [ht]; rfl
    · rw [ht]; exact List.mem_cons_self w t

/-- Witness for the amended C1 on the three-city example. -/
theorem citySample_worst_first_witness :
    exCityTable ≠ [] ∧
    ∃ w, firstMaxBy (fun r => r.aqi) exCityTable = some w ∧
      (∀ r ∈ exCityTable, r.aqi ≤ w.aqi) ∧
      (citySample exCityTable 3).head? = some w ∧
      w ∈ citySample exCityTable 3 :=
  ⟨by decide, citySample_worst_first exCityTable 3 (by decide)⟩

/-- C4: on a latest table (pairwise-distinct entity ids) and any cap ≥ 1,
the city sample has at most `cap` rows, no duplicate entity id, and is
ordered with the max-AQI entity first followed by the alphabetically
first `cap - 1` of the remaining entities, sorted by name and all drawn
from the table. -/
theorem citySample_spec (table : List Obs) (cap : ℕ)
    (hnd : (table.map (fun r => r.entity)).Nodup) (hcap : 1 ≤ cap) :
    (citySample table cap).length ≤ cap ∧
    ((citySample table cap).map (fun r => r.entity)).Nodup ∧
    (∀ w, firstMaxBy (fun r => r.aqi) table = some w →
      citySample table cap =
        w :: (sortByEntity (table.filter (fun r => !(r.entity == w.entity)))).take (cap - 1) ∧
      (∀ r ∈ table, r.aqi ≤ w.aqi) ∧
      List.Sorted (fun a b : Obs => strLe a.entity b.entity = true)
        ((sortByEntity (table.filter (fun r => !(r.entity == w.entity)))).take (cap - 1)) ∧
      (∀ r ∈ (sortByEntity (table.filter (fun r => !(r.entity == w.entity)))).take (cap - 1),
        r ∈ table ∧ r.entity ≠ w.entity)) := by
  cases hw : firstMaxBy (fun r => r.aqi) table with
  | none =>
    have hnil : table = [] := (firstMaxBy_eq_none _ _).mp hw
    subst hnil
    refine ⟨by simp [citySample, firstMaxBy], by simp [citySample, firstMaxBy], ?_⟩
    intro w hcontra
    simp [firstMaxBy] at hcontra
  | some w =>
    rcases restSlice_facts table w (cap - 1) hnd with ⟨hrestnd, hrestmem⟩
    have heq : citySample table cap =
        w :: (sortByEntity (table.filter (fun r => !(r.entity == w.entity)))).take (cap - 1) := by
      unfold citySample
      rw [hw]
      show dedupKeepFirstAux [] _ = _
      rw [show dedupKeepFirstAux []
            (w :: (sortByEntity (table.filter (fun r => !(r.entity == w.entity)))).take
              (cap - 1)) =
          w :: dedupKeepFirstAux [w.entity]
            ((sortByEntity (table.filter (fun r => !(r.entity == w.entity)))).take
              (cap - 1)) from rfl]
      congr 1
      apply dedupKeepFirstAux_eq_self _ _ hrestnd
      intro s hs hmem
      rcases List.mem_cons.mp hmem with h | h
      · exact (hrestmem s hs).2 h
      · exact absurd h (List.not_mem_nil _)
    refine ⟨?_, ?_, ?_⟩
    · rw [heq]
      have := List.length_take_le (cap - 1)
        (sortByEntity (table.filter (fun r => !(r.entity == w.entity))))
      simp only [List.length_cons]
      omega
    · rw [heq]
      simp only [List.map_cons, List.nodup_cons]
      refine ⟨?_, hrestnd⟩
      intro hmem
      rcases List.mem_map.mp hmem with ⟨s, hs, hse⟩
      exact (hrestmem s hs).2 hse
    · intro w2 hw2
      obtain rfl : w = w2 := Option.some.inj hw2
      exact ⟨heq, firstMaxBy_le _ hw,
        List.Pairwise.sublist (List.take_sublist _ _) (sortByEntity_sorted _), hrestmem⟩

/-- Witness for C4 on the cap=3 example A(10), B(90), C(5), whose sample
is exactly [B, A, C]: worst first, then alphabetical. -/
theorem citySample_spec_witness :
    ((exCityTable.map (fun r => r.entity)).Nodup ∧ 1 ≤ 3) ∧
    (citySample exCityTable 3).length ≤ 3 ∧
    ((citySample exCityTable 3).map (fun r => r.entity)).Nodup ∧
    citySample exCityTable 3 =
      [ { entity := "B", date := 0, aqi := 90 },
        { entity := "A", date := 0, aqi := 10 },
        { entity := "C", date := 0, aqi := 5 } ] :=
  ⟨⟨by decide, by decide⟩,
   (citySample_spec exCityTable 3 (by decide) (by decide)).1,
   (citySample_spec exCityTable 3 (by decide) (by decide)).2.1,
   by decide⟩

/-- C2: for every input day table, `latestSelect` contains exactly one
row per distinct entity id; that row's timestamp is the maximum among the
entity's rows, and ties on the maximum timestamp keep the first row in
original source-row order. -/
theorem latestSelect_correct (rows : List DayRow) :
    ((latestSelect rows).map (fun r => r.entity)).Nodup ∧
    (∀ e, e ∈ (latestSelect rows).map (fun r => r.entity) ↔
        e ∈ rows.map (fun r => r.entity)) ∧
    (∀ r ∈ latestSelect rows,
      (∀ s ∈ rows, s.entity = r.entity → s.date ≤ r.date) ∧
      (rows.filter (fun s => s.entity == r.entity && s.date == r.date)).head? = some r) := by
  refine ⟨?_, ?_, ?_⟩
  · rw [latestSelect_map_entity]
    exact sortedEntities_nodup rows
  · intro e
    rw [latestSelect_map_entity]
    exact mem_sortedEntities
  · intro r hr
    rcases mem_latestSelect hr with ⟨_, hfm⟩
    have hle : ∀ s ∈ rows, s.entity = r.entity → s.date ≤ r.date := by
      intro s hs hse
      exact firstMaxBy_le _ hfm s (List.mem_filter.mpr ⟨hs, by simp [hse]⟩)
    refine ⟨hle, ?_⟩
    rw [List.filter_head?]
    have h1 := firstMaxBy_find (fun s : DayRow => s.date) hfm
    rw [List.find?_filter] at h1
    rw [← h1]
    apply find_congr_mem
    intro s hs
    by_cases he : s.entity = r.entity
    · by_cases hd : s.date = r.date
      · simp [he, hd]
      · have hsd : s.date ≤ r.date := hle s hs he
        have hnge : ¬ (r.date ≤ s.date) := fun hge => hd (le_antisymm hsd hge)
        simp [he, hd, hnge]
    · simp [he]

/-- Witness for C2 on `exDayRows`, where Delhi has two rows tied on the
maximum date: the first source row is kept. -/
theorem latestSelect_correct_witness :
    exLatestDelhi ∈ latestSelect exDayRows ∧
    (∀ s ∈ exDayRows, s.entity = exLatestDelhi.entity → s.date ≤ exLatestDelhi.date) ∧
    (exDayRows.filter (fun s => s.entity == exLatestDelhi.entity &&
        s.date == exLatestDelhi.date)).head? = some exLatestDelhi :=
  ⟨by decide,
   ((latestSelect_correct exDayRows).2.2 exLatestDelhi (by decide)).1,
   ((latestSelect_correct exDayRows).2.2 exLatestDelhi (by decide)).2⟩

/-- C3: in the load pipeline, a row whose AQI is missing at the
latest-selection stage is excluded from the prepared table, while a row
whose AQI is present but non-numeric is kept with AQI coerced to 0, and
a numeric AQI is kept as is: only rows missing AQI before the fallback
coercion are dropped. -/
theorem aqi_drop_coerce (rows : List DayRow) (r : DayRow) (hr : r ∈ latestSelect rows) :
    (r.rawAqi = AqiCell.missing → ∀ p ∈ prepare rows, p.entity ≠ r.entity) ∧
    (r.rawAqi = AqiCell.nonNum → ∃ p ∈ prepare rows, p.entity = r.entity ∧ p.aqi = 0) ∧
    (∀ v : ℚ, r.rawAqi = AqiCell.num v →
      ∃ p ∈ prepare rows, p.entity = r.entity ∧ p.aqi = v) := by
  have hnd : ((latestSelect rows).map (fun r => r.entity)).Nodup := by
    rw [latestSelect_map_entity]
    exact sortedEntities_nodup rows
  refine ⟨?_, ?_, ?_⟩
  · intro hmiss p hp hpe
    unfold prepare at hp
    rcases List.mem_map.mp hp with ⟨s, hsf, hsp⟩
    rcases List.mem_filter.mp hsf with ⟨hsl, hsb⟩
    have hsne : s.rawAqi ≠ AqiCell.missing := by simpa using hsb
    have hse : s.entity = r.entity := by
      rw [← hsp] at hpe
      exact hpe
    have hsr : s = r := List.inj_on_of_nodup_map hnd hsl hr hse
    rw [hsr] at hsne
    exact hsne hmiss
  · intro hnn
    refine ⟨{ entity := r.entity, date := r.date, aqi := coerceAqi r.rawAqi }, ?_, rfl, ?_⟩
    · unfold prepare
      exact List.mem_map.mpr ⟨r, List.mem_filter.mpr ⟨hr, by simp [hnn]⟩, rfl⟩
    · rw [hnn]
      rfl
  · intro v hv
    refine ⟨{ entity := r.entity, date := r.date, aqi := coerceAqi r.rawAqi }, ?_, rfl, ?_⟩
    · unfold prepare
      exact List.mem_map.mpr ⟨r, List.mem_filter.mpr ⟨hr, by simp [hv]⟩, rfl⟩
    · rw [hv]
      rfl

/-- Witness for C3 on `exC3Rows`: the row with missing AQI is dropped,
the non-numeric row is kept as 0, the numeric row keeps its value. -/
theorem aqi_drop_coerce_witness :
    (exMissingRow ∈ latestSelect exC3Rows ∧ exNonNumRow ∈ latestSelect exC3Rows) ∧
    (∀ p ∈ prepare exC3Rows, p.entity ≠ exMissingRow.entity) ∧
    (∃ p ∈ prepare exC3Rows, p.entity = exNonNumRow.entity ∧ p.aqi = 0) :=
  ⟨⟨by decide, by decide⟩,
   (aqi_drop_coerce exC3Rows exMissingRow (by decide)).1 rfl,
   (aqi_drop_coerce exC3Rows exNonNumRow (by decide)).2.1 rfl⟩

/-- C5: `classify` maps an AQI value to exactly one tier, with thresholds
inclusive at the lower bound: `aqi ≥ 401` gives SEVERE, `aqi ≥ 301`
VERY_POOR, `aqi ≥ 201` POOR, `aqi ≥ 101` MODERATE, and any other value —
including every negative AQI — gives GOOD; it is a pure total function. -/
theorem classify_spec (a : ℚ) :
    (classify a = Tier.SEVERE ↔ 401 ≤ a) ∧
    (classify a = Tier.VERY_POOR ↔ 301 ≤ a ∧ a < 401) ∧
    (classify a = Tier.POOR ↔ 201 ≤ a ∧ a < 301) ∧
    (classify a = Tier.MODERATE ↔ 101 ≤ a ∧ a < 201) ∧
    (classify a = Tier.GOOD ↔ a < 101) ∧
    (a < 0 → classify a = Tier.GOOD) := by
  unfold classify
  split_ifs with h1 h2 h3 h4 <;>
    refine ⟨?_, ?_, ?_, ?_, ?_, ?_⟩ <;>
    simp_all <;>
    intros <;>
    linarith

/-- Witness for C5: the negative-AQI edge case is GOOD, and 450 is
SEVERE. -/
theorem classify_spec_witness :
    ((-5 : ℚ) < 0) ∧ classify (-5) = Tier.GOOD ∧
      (classify 450 = Tier.SEVERE ↔ (401 : ℚ) ≤ 450) :=
  ⟨by norm_num, (classify_spec (-5)).2.2.2.2.2 (by norm_num), (classify_spec 450).1⟩

/-- C6: the alert classifier is monotone: `aqi1 < aqi2` implies the tier
of `aqi1` is at most the tier of `aqi2` in the severity ordering
GOOD < MODERATE < POOR < VERY_POOR < SEVERE. -/
theorem classify_monotone (a b : ℚ) (hab : a < b) :
    tierRank (classify a) ≤ tierRank (classify b) := by
  unfold classify
  split_ifs <;> simp [tierRank] <;> linarith

/-- Witness for C6 at `50 < 150`. -/
theorem classify_monotone_witness :
    (50 : ℚ) < 150 ∧ tierRank (classify 50) ≤ tierRank (classify 150) :=
  ⟨by norm_num, classify_monotone 50 150 (by norm_num)⟩

theorem runBatchFrom_length (l : List (String × CallOutcome)) :
    ∀ n : ℕ, (runBatchFrom n l).length = l.length := by
  induction l with
  | nil => intro n; rfl
  | cons qc rest ih =>
    intro n
    rcases qc with ⟨q, out⟩
    simp [runBatchFrom, ih]

theorem runBatchFrom_get (l : List (String × CallOutcome)) :
    ∀ n i : ℕ, (runBatchFrom n l).get? i =
      (l.get? i).map (fun qc => mkResult (n + i) qc.1 qc.2) := by
  induction l with
  | nil => intro n i; simp [runBatchFrom]
  | cons qc rest ih =>
    intro n i
    rcases qc with ⟨q, out⟩
    cases i with
    | zero => simp [runBatchFrom]
    | succ j =>
      have hidx : n + 1 + j = n + (j + 1) := by omega
      rw [show runBatchFrom n ((q, out) :: rest) =
            mkResult n q out :: runBatchFrom (n + 1) rest from rfl]
      rw [List.get?_cons_succ, List.get?_cons_succ, ih (n + 1) j, hidx]

theorem runBatchFrom_mem (l : List (String × CallOutcome)) :
    ∀ n : ℕ, ∀ r ∈ runBatchFrom n l, ∃ qid q out, r = mkResult qid q out := by
  induction l with
  | nil => intro n r hr; simp [runBatchFrom] at hr
  | cons qc rest ih =>
    intro n r hr
    rcases qc with ⟨q, out⟩
    rcases List.mem_cons.mp hr with h | h
    · exact ⟨n, q, out, h⟩
    · exact ih (n + 1) r h

theorem mkResult_status_iff (qid : ℕ) (q : String) (out : CallOutcome) :
    (mkResult qid q out).status = Status.SUCCESS ↔ 0 ≤ (mkResult qid q out).latency := by
  unfold mkResult
  by_cases h : 0 ≤ (respAndTime out).2 <;> simp [h]

/-- C7: the batch runner produces one result per query in input order
(query ids are `i + 1`), using the endpoint-reported service time when
available and otherwise the locally measured elapsed time, with status
SUCCESS exactly when the latency is non-negative; when the call raises,
the recorded response is the error description and the latency is the
sentinel `-1`. -/
theorem runBatch_spec (inp : List (String × CallOutcome)) :
    (runBatch inp).length = inp.length ∧
    (∀ i : ℕ, (runBatch inp).get? i =
      (inp.get? i).map (fun qc => mkResult (i + 1) qc.1 qc.2)) ∧
    (∀ qid q out,
      ((mkResult qid q out).queryId = qid ∧ (mkResult qid q out).query = q) ∧
      ((mkResult qid q out).status = Status.SUCCESS ↔ 0 ≤ (mkResult qid q out).latency) ∧
      (∀ c t e, out = CallOutcome.ok c (some t) e →
        (mkResult qid q out).response = c ∧ (mkResult qid q out).latency = t) ∧
      (∀ c e, out = CallOutcome.ok c none e →
        (mkResult qid q out).response = c ∧ (mkResult qid q out).latency = e) ∧
      (∀ m, out = CallOutcome.err m →
        (mkResult qid q out).response = "API_ERROR: " ++ m ∧
        (mkResult qid q out).latency = -1 ∧
        (mkResult qid q out).status = Status.FAILURE)) := by
  refine ⟨runBatchFrom_length inp 1, ?_, ?_⟩
  · intro i
    have h := runBatchFrom_get inp 1 i
    rw [runBatch]
    rw [h]
    have hidx : 1 + i = i + 1 := Nat.add_comm 1 i
    rw [hidx]
  · intro qid q out
    refine ⟨⟨rfl, rfl⟩, mkResult_status_iff qid q out, ?_, ?_, ?_⟩
    · intro c t e hout
      subst hout
      exact ⟨rfl, rfl⟩
    · intro c e hout
      subst hout
      exact ⟨rfl, rfl⟩
    · intro m hout
      subst hout
      refine ⟨rfl, rfl, ?_⟩
      unfold mkResult respAndTime
      norm_num

/-- Witness for C7 on the three-query example where the second call
raises: statuses are SUCCESS, FAILURE, SUCCESS and the failed row has
the sentinel latency. -/
theorem runBatch_spec_witness :
    (runBatch exBatch).get? 1 = some (mkResult 2 "q2" (CallOutcome.err "boom")) ∧
    (runBatch exBatch).map (fun r => r.status) =
      [Status.SUCCESS, Status.FAILURE, Status.SUCCESS] ∧
    (mkResult 2 "q2" (CallOutcome.err "boom")).latency = -1 :=
  ⟨((runBatch_spec exBatch).2.1 1).trans (by decide),
   by decide,
   (((runBatch_spec exBatch).2.2 2 "q2" (CallOutcome.err "boom")).2.2.2.2 "boom" rfl).2.1⟩

theorem errorReply_split (e : String) :
    errorReply e = "An API " ++ ("error" ++ (" occurred: " ++ (e ++ apiErrorTail))) := by
  unfold errorReply
  have h : ("An API error occurred: " : String) =
      "An API " ++ "error" ++ " occurred: " := by decide
  rw [h]
  simp only [String.append_assoc]

/-- C8: if the Groq call fails, `submitTurn` returns a displayable string
containing the word "error" and embedding the failure reason rather than
raising, and the history still grows by exactly one user turn and one
assistant turn carrying that error text. -/
theorem submit_error_spec (key : Option String) (hist : List ChatTurn) (q e : String)
    (hk : keyPresent key = true) :
    (submitTurn key hist q (Except.error e)).2 = errorReply e ∧
    (∃ pre post, (submitTurn key hist q (Except.error e)).2 = pre ++ ("error" ++ post)) ∧
    (submitTurn key hist q (Except.error e)).1 =
      hist ++ [{ role := "user", content := q },
               { role := "assistant", content := errorReply e }] ∧
    (submitTurn key hist q (Except.error e)).1.length = hist.length + 2 := by
  have hrep : getGroqResponse key (Except.error e) = errorReply e := by
    unfold getGroqResponse
    rw [hk]
    rfl
  refine ⟨?_, ?_, ?_, ?_⟩
  · simp [submitTurn, hrep]
  · exact ⟨"An API ", " occurred: " ++ (e ++ apiErrorTail),
      by simp [submitTurn, hrep, errorReply_split]⟩
  · simp [submitTurn, hrep]
  · simp [submitTurn]

/-- Witness for C8 at a concrete failing call. -/
theorem submit_error_spec_witness :
    keyPresent (some "k") = true ∧
    (submitTurn (some "k") [] "hi" (Except.error "boom")).2 = errorReply "boom" ∧
    (submitTurn (some "k") [] "hi" (Except.error "boom")).1.length =
      ([] : List ChatTurn).length + 2 :=
  ⟨by decide,
   (submit_error_spec (some "k") [] "hi" "boom" (by decide)).1,
   (submit_error_spec (some "k") [] "hi" "boom" (by decide)).2.2.2⟩

/-- C9 counterexample: with the credential absent, the interactive path
(demo.py) does not halt — the turn still completes with a reply — so the
claim that both paths halt before any network call is false. -/
theorem interactive_no_halt :
    keyPresent none = false ∧
    interactiveTurn none [] "hi" (Except.ok "ignored") ≠ TurnOutcome.halted := by
  decide

/-- C9 as amended: with the credential absent, the batch path halts
fatally before any network call, while the interactive path reports the
missing credential as the per-turn reply — independent of the network
call's result, so no call is consulted — and the session continues. -/
theorem missing_key_spec (key : Option String) (hk : keyPresent key = false) :
    batchStartup key = Except.error fatalKeyMsg ∧
    (∀ hist q c₁ c₂, interactiveTurn key hist q c₁ = interactiveTurn key hist q c₂) ∧
    (∀ hist q c, interactiveTurn key hist q c =
      TurnOutcome.replied
        (hist ++ [{ role := "user", content := q },
                  { role := "assistant", content := keyMissingMsg }]) keyMissingMsg) := by
  have hresp : ∀ c, getGroqResponse key c = keyMissingMsg := by
    intro c
    unfold getGroqResponse
    rw [hk]
    rfl
  refine ⟨?_, ?_, ?_⟩
  · unfold batchStartup
    rw [hk]
    rfl
  · intro hist q c₁ c₂
    simp [interactiveTurn, submitTurn, hresp]
  · intro hist q c
    simp [interactiveTurn, submitTurn, hresp]

/-- Witness for the amended C9 at the concrete absent key. -/
theorem missing_key_spec_witness :
    keyPresent none = false ∧
    batchStartup none = Except.error fatalKeyMsg ∧
    interactiveTurn none [] "q" (Except.ok "r") =
      TurnOutcome.replied
        ([] ++ [{ role := "user", content := "q" },
                { role := "assistant", content := keyMissingMsg }]) keyMissingMsg :=
  ⟨rfl, (missing_key_spec none rfl).1,
   (missing_key_spec none rfl).2.2 [] "q" (Except.ok "r")⟩

theorem runBatch_status_latency (inp : List (String × CallOutcome)) :
    ∀ r ∈ runBatch inp, (decide (0 ≤ r.latency)) = (r.status == Status.SUCCESS) := by
  intro r hr
  rcases runBatchFrom_mem inp 1 r hr with ⟨qid, q, out, rfl⟩
  have hiff := mkResult_status_iff qid q out
  by_cases h : 0 ≤ (mkResult qid q out).latency
  · simp [h, hiff.mpr h]
  · have hns : (mkResult qid q out).status ≠ Status.SUCCESS := fun hs => h (hiff.mp hs)
    cases hst : (mkResult qid q out).status with
    | SUCCESS => exact absurd hst hns
    | FAILURE => simp [h]

/-- C10: if every query in a batch failed, the final summary reports
`N/A` instead of raising; otherwise the mean and median are computed
exactly over the SUCCESS rows (the rows with latency ≥ 0). -/
theorem finalSummary_spec (inp : List (String × CallOutcome)) :
    ((∀ r ∈ runBatch inp, r.status = Status.FAILURE) →
      finalSummary (runBatch inp) = Summary.na) ∧
    (∀ sr ∈ runBatch inp, sr.status = Status.SUCCESS →
      finalSummary (runBatch inp) =
        Summary.stats
          (meanOf (((runBatch inp).filter (fun r => r.status == Status.SUCCESS)).map
            (fun r => r.latency)))
          (medianOf (((runBatch inp).filter (fun r => r.status == Status.SUCCESS)).map
            (fun r => r.latency)))) := by
  have hfeq : (runBatch inp).filter (fun r => decide (0 ≤ r.latency)) =
      (runBatch inp).filter (fun r => r.status == Status.SUCCESS) :=
    List.filter_congr (runBatch_status_latency inp)
  constructor
  · intro hall
    have hempty : (runBatch inp).filter (fun r => r.status == Status.SUCCESS) = [] := by
      rw [List.filter_eq_nil_iff]
      intro r hr
      simp [hall r hr]
    unfold finalSummary
    rw [hfeq, hempty]
    rfl
  · intro sr hsr hs
    have hne : (runBatch inp).filter (fun r => r.status == Status.SUCCESS) ≠ [] := by
      intro hnil
      have hmem : sr ∈ (runBatch inp).filter (fun r => r.status == Status.SUCCESS) :=
        List.mem_filter.mpr ⟨hsr, by simp [hs]⟩
      rw [hnil] at hmem
      exact absurd hmem (List.not_mem_nil sr)
    unfold finalSummary
    rw [hfeq, if_neg (by simpa using hne)]

/-- Witness for C10 on a batch where every call fails: the summary is
`N/A`. -/
theorem finalSummary_spec_witness :
    (∀ r ∈ runBatch exBatchAllFail, r.status = Status.FAILURE) ∧
    finalSummary (runBatch exBatchAllFail) = Summary.na :=
  ⟨by decide, (finalSummary_spec exBatchAllFail).1 (by decide)⟩

end AirQuality
